import Mathlib

/-!
Verification development for `scripts/fetch-prs.py`: a script that pages
through a GraphQL pull-request listing, keeps the pull requests that were
updated since a cutoff date and are merged or still open, and prints them
as CSV to standard output.

Shallow embedding conventions:
* Timestamps (`datetime` values in the script) are modelled as integers;
  the `datetime.fromisoformat` parsing of the `updatedAt` field is
  abstracted away, so a node carries its parsed timestamp directly and a
  record's `updated` column renders that integer.
* The network is modelled as the finite list of JSON responses the API
  would return, one per request the loop issues; the HTTP transport
  (`fetch_graphql`) is abstracted into this list, and the pagination
  cursor merely selects the next element of the list.
* A top-level API response is modelled by which optional keys it has:
  `errors` (the script tests key presence), and `data` with a nullable
  `repository` under it; a non-null repository is identified with its
  `pullRequests` page.
-/

/-- One element of `data.repository.pullRequests.nodes` in an API
response, with `updatedAt` already parsed to an integer timestamp. -/
structure Node where
  title : String
  url : String
  merged : Bool
  updatedAt : Int
  state : String
  deriving DecidableEq

/-- The `pageInfo` object of a response page. -/
structure PageInfo where
  hasNextPage : Bool
  endCursor : Option String
  deriving DecidableEq

/-- The `pullRequests` object of a non-null repository: one page. -/
structure Page where
  pageInfo : PageInfo
  nodes : List Node
  deriving DecidableEq

/-- A top-level API response. `errors = none` models the absence of the
`errors` key (the script checks key presence, not emptiness);
`data = none` models a missing `data` key, `data = some none` a null
repository, and `data = some (some p)` a repository whose
`pullRequests` field is the page `p`. -/
structure ApiResult where
  errors : Option (List String)
  data : Option (Option Page)
  deriving DecidableEq

/-- A retained pull-request record, as appended to `all_prs`: the
`merged` column is already rendered to the literal text used in the CSV
output. -/
structure Record where
  title : String
  link : String
  merged : String
  updated : Int
  deriving DecidableEq

/-- `pr["merged"] or pr["state"] == "OPEN"`: the retention test applied
to an in-window node. -/
def mergedOrOpen (pr : Node) : Bool :=
  pr.merged || pr.state == "OPEN"

/-- The dictionary appended to `all_prs` for a retained node. -/
def mkRecord (pr : Node) : Record :=
  { title := pr.title
    link := pr.url
    merged := if pr.merged then "true" else "false"
    updated := pr.updatedAt }

/-- The `for pr in pull_requests["nodes"]` loop body of `fetch_prs`:
walks the nodes of one page in order, stopping at the first node whose
`updatedAt` is strictly before `since_date` (clearing `should_continue`,
returned as the Boolean), and collects a record for every in-window node
that is merged or open. -/
def processNodes (since_date : Int) : List Node → List Record × Bool
  | [] => ([], true)
  | pr :: rest =>
    if pr.updatedAt < since_date then
      ([], false)
    else
      let tail := processNodes since_date rest
      ((if mergedOrOpen pr then [mkRecord pr] else []) ++ tail.1, tail.2)

/-- Outcome of the pagination loop of `fetch_prs`.  `ok` is a normal
return of the accumulated list; `fatalErrors` and `fatalNoRepo` are the
two `sys.exit(1)` paths inside the loop.  `outOfPages` is a model
artifact: the loop wanted a further page but the modelled response list
was exhausted; it cannot occur against a live endpoint, which answers
every request. -/
inductive FetchResult where
  | ok (prs : List Record)
  | fatalErrors (errs : List String)
  | fatalNoRepo
  | outOfPages (acc : List Record)
  deriving DecidableEq

/-- The `while should_continue` loop of `fetch_prs`, consuming the
modelled response list one element per iteration, with `acc` playing
`all_prs`. -/
def fetch_go (since_date : Int) : List ApiResult → List Record → FetchResult
  | [], acc => .outOfPages acc
  | result :: rest, acc =>
    match result.errors with
    | some errs => .fatalErrors errs
    | none =>
      match result.data with
      | none => .fatalNoRepo
      | some none => .fatalNoRepo
      | some (some pullRequests) =>
        let page_info := pullRequests.pageInfo
        let step := processNodes since_date pullRequests.nodes
        if page_info.hasNextPage && step.2 then
          fetch_go since_date rest (acc ++ step.1)
        else
          .ok (acc ++ step.1)

/-- `fetch_prs`, starting from an empty `all_prs`. -/
def fetch_prs (since_date : Int) (responses : List ApiResult) : FetchResult :=
  fetch_go since_date responses []

/-- Number of loop iterations `fetch_prs` performs on the given response
list: each iteration issues exactly one network request and consumes one
response. -/
def fetchCalls (since_date : Int) : List ApiResult → Nat
  | [] => 0
  | result :: rest =>
    1 +
      match result.errors with
      | some _ => 0
      | none =>
        match result.data with
        | none => 0
        | some none => 0
        | some (some pullRequests) =>
          if pullRequests.pageInfo.hasNextPage &&
              (processNodes since_date pullRequests.nodes).2 then
            fetchCalls since_date rest
          else 0

/-! ## CSV serialization

`main` uses `csv.DictWriter(sys.stdout, fieldnames=["title", "link",
"merged", "updated"], lineterminator="\n")`.  The writer quotes a field
exactly when it contains the delimiter, the quote character, or a
character of the line terminator, doubling embedded quotes; the field
order is the fixed `fieldnames` list and each row ends in a single
newline. -/

/-- A character that forces CSV quoting for this writer configuration:
the delimiter, the quote character, or the (single-character) line
terminator. -/
def csvSpecialChar (c : Char) : Bool :=
  c == ',' || c == '"' || c == '\n'

/-- Whether the writer quotes this field. -/
def needsQuoting (s : String) : Bool :=
  s.data.any csvSpecialChar

/-- Double every embedded quote character. -/
def escapeQuotes : List Char → List Char
  | [] => []
  | c :: cs =>
    if c == '"' then '"' :: '"' :: escapeQuotes cs else c :: escapeQuotes cs

/-- One serialized CSV field. -/
def csvField (s : String) : String :=
  if needsQuoting s then
    "\"" ++ String.mk (escapeQuotes s.data) ++ "\""
  else s

/-- One serialized data row, in the fixed `fieldnames` order
`title, link, merged, updated`, terminated by a single newline. -/
def csvRow (r : Record) : String :=
  csvField r.title ++ "," ++ csvField r.link ++ "," ++ csvField r.merged
    ++ "," ++ csvField (toString r.updated) ++ "\n"

/-- The header row written by `writer.writeheader()`. -/
def csvHeader : String :=
  "title,link,merged,updated\n"

/-- Everything `main` writes to standard output on the success path:
the header followed by one row per retained record. -/
def csvOutput (prs : List Record) : String :=
  csvHeader ++ String.join (prs.map csvRow)

/-! ## The GraphQL request body -/

/-- A JSON value, as far as the request body needs one. -/
inductive Json where
  | null
  | str (s : String)
  | obj (fields : List (String × Json))

/-- The fixed GraphQL document of `fetch_prs` (braces written with hex
escapes). -/
def prQuery : String :=
  "\n    query($owner: String!, $repo: String!, $cursor: String) \x7b\n      repository(owner: $owner, name: $repo) \x7b\n        pullRequests(first: 100, after: $cursor, orderBy: \x7bfield: UPDATED_AT, direction: DESC\x7d) \x7b\n          pageInfo \x7b\n            hasNextPage\n            endCursor\n          \x7d\n          nodes \x7b\n            title\n            url\n            merged\n            mergedAt\n            updatedAt\n            state\n          \x7d\n        \x7d\n      \x7d\n    \x7d\n    "

/-- The JSON rendering of the Python cursor value (`None` or a string). -/
def optCursorJson : Option String → Json
  | none => .null
  | some c => .str c

/-- The `variables` dictionary built at the top of every loop iteration
of `fetch_prs`. -/
def requestVariables (cursor : Option String) (sinceIso : String) :
    List (String × Json) :=
  [("owner", .str "NixOS"),
   ("repo", .str "nixpkgs"),
   ("cursor", optCursorJson cursor),
   ("since", .str sinceIso)]

/-- The request body `fetch_graphql` serializes and POSTs: an object
with the `query` text and the `variables` object. -/
def requestBody (query : String) (vars : List (String × Json)) : Json :=
  .obj [("query", .str query), ("variables", .obj vars)]

/-- The keys of a JSON object, in order (`[]` for non-objects). -/
def jsonKeys : Json → List String
  | .obj fields => fields.map Prod.fst
  | _ => []

/-! ## The driver (`main`) -/

/-- Observable behavior of one run of the process: what was written to
standard output and (line by line) to the error stream, the exit code,
and how many network requests were issued. -/
structure ProcResult where
  stdout : String
  stderr : List String
  exitCode : Nat
  networkCalls : Nat
  deriving DecidableEq

/-- The message printed when `GITHUB_TOKEN` is missing or empty. -/
def tokenMsg : String :=
  "Error: GITHUB_TOKEN environment variable is required"

/-- The message printed for a response carrying an `errors` key. -/
def graphqlErrorsMsg (errs : List String) : String :=
  "GraphQL errors: " ++ String.intercalate ", " errs

/-- The message printed for a response without accessible repository
data. -/
def repoMsg : String :=
  "Repository not accessible"

/-- `main`: checks the token (Python's `not token` is true for an unset
variable and for the empty string), then runs `fetch_prs` against the
modelled response list and serializes the result.  The cutoff
`since_date` (now minus `--newer-than-days` days) is taken as an input,
since the current time is an environment input.  The `outOfPages` branch
is the model artifact described at `FetchResult`; it is unreachable
against a live endpoint. -/
def main_run (githubToken : Option String) (since_date : Int)
    (responses : List ApiResult) : ProcResult :=
  match githubToken with
  | none =>
    { stdout := "", stderr := [tokenMsg], exitCode := 1, networkCalls := 0 }
  | some token =>
    if token = "" then
      { stdout := "", stderr := [tokenMsg], exitCode := 1, networkCalls := 0 }
    else
      match fetch_prs since_date responses with
      | .fatalErrors errs =>
        { stdout := "", stderr := [graphqlErrorsMsg errs], exitCode := 1,
          networkCalls := fetchCalls since_date responses }
      | .fatalNoRepo =>
        { stdout := "", stderr := [repoMsg], exitCode := 1,
          networkCalls := fetchCalls since_date responses }
      | .outOfPages _ =>
        { stdout := "", stderr := [], exitCode := 2,
          networkCalls := fetchCalls since_date responses }
      | .ok prs =>
        { stdout := csvOutput prs, stderr := [], exitCode := 0,
          networkCalls := fetchCalls since_date responses }

/-! ## Environment hypotheses -/

/-- The well-formed API response wrapping one page: no `errors` key, a
non-null repository. -/
def okResponse (p : Page) : ApiResult :=
  { errors := none, data := some (some p) }

/-- A coherent paginated listing: every page but the last announces a
next page, the last one does not, and at least one page exists (a live
endpoint answers the first request). -/
def pagesChain : List Page → Bool
  | [] => false
  | [p] => !p.pageInfo.hasNextPage
  | p :: q :: rest => p.pageInfo.hasNextPage && pagesChain (q :: rest)

/-- Nodes listed in descending `updatedAt` order (every later node is no
newer than every earlier one), as the query's
`orderBy: UPDATED_AT DESC` guarantees. -/
def nodesDesc : List Node → Bool
  | [] => true
  | a :: rest =>
    rest.all (fun b => decide (b.updatedAt ≤ a.updatedAt)) && nodesDesc rest

/-- All nodes of a page list, in listing order. -/
def allNodes : List Page → List Node
  | [] => []
  | p :: ps => p.nodes ++ allNodes ps

/-- The retention predicate of the spec: updated at or after the cutoff,
and merged or open. -/
def keepNode (since_date : Int) (pr : Node) : Bool :=
  !decide (pr.updatedAt < since_date) && mergedOrOpen pr

/-- A response on which the pagination loop keeps going: a well-formed
page that announces a next page and whose node walk leaves
`should_continue` set. -/
def Continues (since_date : Int) (r : ApiResult) : Prop :=
  r.errors = none ∧
    ∃ p : Page, r.data = some (some p) ∧ p.pageInfo.hasNextPage = true ∧
      (processNodes since_date p.nodes).2 = true

/-! ## Helper lemmas -/

theorem nodesDesc_cons_iff (a : Node) (rest : List Node) :
    nodesDesc (a :: rest) = true ↔
      (∀ b ∈ rest, b.updatedAt ≤ a.updatedAt) ∧ nodesDesc rest = true := by
  simp [nodesDesc, List.all_eq_true]

theorem nodesDesc_append (xs ys : List Node) (h : nodesDesc (xs ++ ys) = true) :
    nodesDesc xs = true ∧ nodesDesc ys = true ∧
      ∀ a ∈ xs, ∀ b ∈ ys, b.updatedAt ≤ a.updatedAt := by
  induction xs with
  | nil =>
    refine ⟨rfl, by simpa using h, ?_⟩
    intro a ha
    simp at ha
  | cons a xs ih =>
    rw [List.cons_append, nodesDesc_cons_iff] at h
    obtain ⟨hhead, htail⟩ := h
    obtain ⟨hxs, hys, hcross⟩ := ih htail
    refine ⟨?_, hys, ?_⟩
    · rw [nodesDesc_cons_iff]
      exact ⟨fun b hb => hhead b (List.mem_append_left ys hb), hxs⟩
    · intro c hc b hb
      rcases List.mem_cons.mp hc with rfl | hc
      · exact hhead b (List.mem_append_right xs hb)
      · exact hcross c hc b hb

theorem filter_keepNode_nil (since_date : Int) (nodes : List Node)
    (h : ∀ pr ∈ nodes, pr.updatedAt < since_date) :
    nodes.filter (keepNode since_date) = [] := by
  induction nodes with
  | nil => rfl
  | cons pr rest ih =>
    have hpr : pr.updatedAt < since_date := h pr (List.mem_cons_self pr rest)
    rw [List.filter_cons]
    simp only [keepNode, decide_eq_true hpr, Bool.not_true, Bool.false_and,
      Bool.false_eq_true, if_false]
    exact ih fun q hq => h q (List.mem_cons_of_mem pr hq)

theorem processNodes_sorted (since_date : Int) (nodes : List Node)
    (h : nodesDesc nodes = true) :
    processNodes since_date nodes =
      ((nodes.filter (keepNode since_date)).map mkRecord,
        nodes.all fun pr => !decide (pr.updatedAt < since_date)) := by
  induction nodes with
  | nil => simp [processNodes]
  | cons pr rest ih =>
    rw [nodesDesc_cons_iff] at h
    obtain ⟨hhead, htail⟩ := h
    by_cases hlt : pr.updatedAt < since_date
    · have hall : ∀ q ∈ rest, q.updatedAt < since_date := fun q hq =>
        lt_of_le_of_lt (hhead q hq) hlt
      simp [processNodes, hlt, keepNode, filter_keepNode_nil since_date rest hall]
    · by_cases hmo : mergedOrOpen pr = true
      · simp [processNodes, hlt, ih htail, List.filter_cons, keepNode, hmo]
      · simp [processNodes, hlt, ih htail, List.filter_cons, keepNode, hmo]

theorem processNodes_split (since_date : Int) (pre : List Node) (stale : Node)
    (post : List Node) (hpre : ∀ pr ∈ pre, ¬pr.updatedAt < since_date)
    (hstale : stale.updatedAt < since_date) :
    processNodes since_date (pre ++ stale :: post) =
      ((pre.filter mergedOrOpen).map mkRecord, false) := by
  induction pre with
  | nil => simp [processNodes, hstale]
  | cons pr rest ih =>
    have hfresh : ¬pr.updatedAt < since_date :=
      hpre pr (List.mem_cons_self pr rest)
    have ih2 := ih fun q hq => hpre q (List.mem_cons_of_mem pr hq)
    by_cases hmo : mergedOrOpen pr = true
    · simp [processNodes, hfresh, ih2, List.filter_cons, hmo]
    · simp [processNodes, hfresh, ih2, List.filter_cons, hmo]

theorem fetch_go_okResponse (since_date : Int) (p : Page)
    (rest : List ApiResult) (acc : List Record) :
    fetch_go since_date (okResponse p :: rest) acc =
      if p.pageInfo.hasNextPage && (processNodes since_date p.nodes).2 then
        fetch_go since_date rest (acc ++ (processNodes since_date p.nodes).1)
      else .ok (acc ++ (processNodes since_date p.nodes).1) := by
  rfl

theorem fetch_go_pages (since_date : Int) (pages : List Page)
    (hchain : pagesChain pages = true)
    (hdesc : nodesDesc (allNodes pages) = true) (acc : List Record) :
    fetch_go since_date (pages.map okResponse) acc =
      .ok (acc ++ ((allNodes pages).filter (keepNode since_date)).map mkRecord) := by
  induction pages generalizing acc with
  | nil => simp [pagesChain] at hchain
  | cons p ps ih =>
    cases ps with
    | nil =>
      have hnext : p.pageInfo.hasNextPage = false := by
        simpa [pagesChain] using hchain
      have hd : nodesDesc p.nodes = true := by
        simpa [allNodes] using hdesc
      rw [List.map_cons, List.map_nil, fetch_go_okResponse,
        processNodes_sorted since_date _ hd]
      simp [hnext, allNodes]
    | cons q qs =>
      have hnext : p.pageInfo.hasNextPage = true := by
        have := hchain
        simp [pagesChain, Bool.and_eq_true] at this
        exact this.1
      have hchain2 : pagesChain (q :: qs) = true := by
        have := hchain
        simp [pagesChain, Bool.and_eq_true] at this
        simp [pagesChain, Bool.and_eq_true, this.2]
      have hsplit := nodesDesc_append p.nodes (allNodes (q :: qs))
        (by simpa [allNodes] using hdesc)
      obtain ⟨hdp, hdtail, hcross⟩ := hsplit
      rw [List.map_cons, fetch_go_okResponse, processNodes_sorted since_date _ hdp]
      by_cases hall : (p.nodes.all fun pr => !decide (pr.updatedAt < since_date)) = true
      · rw [hall]
        simp only [hnext, Bool.and_true, Bool.and_self, if_true]
        rw [ih hchain2 hdtail]
        simp [allNodes, List.filter_append, List.append_assoc]
      · have hstale : ∃ pr ∈ p.nodes, pr.updatedAt < since_date := by
          rcases List.all_eq_false.mp (Bool.eq_false_iff.mpr hall) with ⟨pr, hpr, hf⟩
          exact ⟨pr, hpr, by simpa using hf⟩
        obtain ⟨pr, hprmem, hprlt⟩ := hstale
        have htailnil : (allNodes (q :: qs)).filter (keepNode since_date) = [] :=
          filter_keepNode_nil since_date _ fun b hb =>
            lt_of_le_of_lt (hcross pr hprmem b hb) hprlt
        rw [Bool.eq_false_iff.mpr hall]
        rw [Bool.and_false, if_neg Bool.false_ne_true]
        rw [show allNodes (p :: q :: qs) = p.nodes ++ allNodes (q :: qs) from rfl,
          List.filter_append, htailnil, List.append_nil]

theorem fetch_go_skip (since_date : Int) (pre rest : List ApiResult)
    (h : ∀ r ∈ pre, Continues since_date r) (acc : List Record) :
    ∃ acc2, fetch_go since_date (pre ++ rest) acc =
      fetch_go since_date rest acc2 := by
  induction pre generalizing acc with
  | nil => exact ⟨acc, rfl⟩
  | cons r pre ih =>
    obtain ⟨herr, p, hdata, hnext, hcont⟩ := h r (List.mem_cons_self r pre)
    obtain ⟨e, d⟩ := r
    simp only [ApiResult.errors] at herr
    simp only [ApiResult.data] at hdata
    subst herr
    subst hdata
    rw [List.cons_append]
    rw [show fetch_go since_date
        (ApiResult.mk none (some (some p)) :: (pre ++ rest)) acc =
      fetch_go since_date (pre ++ rest)
        (acc ++ (processNodes since_date p.nodes).1) from by
        simp [fetch_go, hnext, hcont]]
    exact ih (fun s hs => h s (List.mem_cons_of_mem _ hs)) _

theorem processNodes_mem (since_date : Int) (nodes : List Node) (r : Record)
    (hr : r ∈ (processNodes since_date nodes).1) :
    ∃ pr ∈ nodes, r = mkRecord pr := by
  induction nodes with
  | nil => simp [processNodes] at hr
  | cons pr rest ih =>
    by_cases hlt : pr.updatedAt < since_date
    · simp [processNodes, hlt] at hr
    · rw [show (processNodes since_date (pr :: rest)).1 =
          (if mergedOrOpen pr then [mkRecord pr] else []) ++
            (processNodes since_date rest).1 from by
          simp [processNodes, hlt]] at hr
      rcases List.mem_append.mp hr with hl | hrest
      · refine ⟨pr, List.mem_cons_self pr rest, ?_⟩
        by_cases hmo : mergedOrOpen pr = true
        · simpa [hmo] using hl
        · simp [Bool.eq_false_iff.mpr hmo] at hl
      · obtain ⟨q, hq, hrq⟩ := ih hrest
        exact ⟨q, List.mem_cons_of_mem pr hq, hrq⟩

theorem fetch_go_ok_mem (since_date : Int) (responses : List ApiResult)
    (acc prs : List Record)
    (hok : fetch_go since_date responses acc = .ok prs)
    (r : Record) (hr : r ∈ prs) :
    r ∈ acc ∨ ∃ pr : Node, r = mkRecord pr := by
  induction responses generalizing acc with
  | nil => simp [fetch_go] at hok
  | cons result rest ih =>
    obtain ⟨e, d⟩ := result
    cases e with
    | some errs => simp [fetch_go] at hok
    | none =>
      cases d with
      | none => simp [fetch_go] at hok
      | some repo =>
        cases repo with
        | none => simp [fetch_go] at hok
        | some p =>
          by_cases hc : (p.pageInfo.hasNextPage &&
              (processNodes since_date p.nodes).2) = true
          · rw [show fetch_go since_date
                (ApiResult.mk none (some (some p)) :: rest) acc =
              fetch_go since_date rest
                (acc ++ (processNodes since_date p.nodes).1) from by
                simp [fetch_go, hc]] at hok
            rcases ih _ hok with hmem | hex
            · rcases List.mem_append.mp hmem with hl | hstep
              · exact Or.inl hl
              · obtain ⟨pr, _, hrpr⟩ := processNodes_mem since_date _ r hstep
                exact Or.inr ⟨pr, hrpr⟩
            · exact Or.inr hex
          · rw [show fetch_go since_date
                (ApiResult.mk none (some (some p)) :: rest) acc =
              .ok (acc ++ (processNodes since_date p.nodes).1) from by
                simp [fetch_go, Bool.eq_false_iff.mpr hc]] at hok
            obtain rfl : acc ++ (processNodes since_date p.nodes).1 = prs :=
              by injection hok
            rcases List.mem_append.mp hr with hl | hstep
            · exact Or.inl hl
            · obtain ⟨pr, _, hrpr⟩ := processNodes_mem since_date _ r hstep
              exact Or.inr ⟨pr, hrpr⟩

theorem fetchCalls_le_length (since_date : Int) (responses : List ApiResult) :
    fetchCalls since_date responses ≤ responses.length := by
  induction responses with
  | nil => simp [fetchCalls]
  | cons result rest ih =>
    obtain ⟨e, d⟩ := result
    cases e with
    | some errs => simp [fetchCalls, List.length_cons]
    | none =>
      cases d with
      | none => simp [fetchCalls, List.length_cons]
      | some repo =>
        cases repo with
        | none => simp [fetchCalls, List.length_cons]
        | some p =>
          by_cases hc : (p.pageInfo.hasNextPage &&
              (processNodes since_date p.nodes).2) = true
          · rw [show fetchCalls since_date
                (ApiResult.mk none (some (some p)) :: rest) =
              1 + fetchCalls since_date rest from by simp [fetchCalls, hc]]
            simp only [List.length_cons]
            omega
          · rw [show fetchCalls since_date
                (ApiResult.mk none (some (some p)) :: rest) = 1 from by
                simp [fetchCalls, Bool.eq_false_iff.mpr hc]]
            simp only [List.length_cons]
            omega

theorem fetch_go_take_calls (since_date : Int) (responses : List ApiResult)
    (acc : List Record) :
    fetch_go since_date responses acc =
      fetch_go since_date
        (responses.take (fetchCalls since_date responses)) acc := by
  induction responses generalizing acc with
  | nil => simp [fetchCalls]
  | cons result rest ih =>
    obtain ⟨e, d⟩ := result
    cases e with
    | some errs => simp [fetchCalls, fetch_go]
    | none =>
      cases d with
      | none => simp [fetchCalls, fetch_go]
      | some repo =>
        cases repo with
        | none => simp [fetchCalls, fetch_go]
        | some p =>
          by_cases hc : (p.pageInfo.hasNextPage &&
              (processNodes since_date p.nodes).2) = true
          · rw [show fetchCalls since_date
                (ApiResult.mk none (some (some p)) :: rest) =
              1 + fetchCalls since_date rest from by simp [fetchCalls, hc]]
            rw [show 1 + fetchCalls since_date rest =
              fetchCalls since_date rest + 1 from Nat.add_comm _ _]
            rw [List.take_succ_cons]
            rw [show fetch_go since_date
                (ApiResult.mk none (some (some p)) :: rest) acc =
              fetch_go since_date rest
                (acc ++ (processNodes since_date p.nodes).1) from by
                simp [fetch_go, hc]]
            rw [show fetch_go since_date
                (ApiResult.mk none (some (some p)) ::
                  rest.take (fetchCalls since_date rest)) acc =
              fetch_go since_date (rest.take (fetchCalls since_date rest))
                (acc ++ (processNodes since_date p.nodes).1) from by
                simp [fetch_go, hc]]
            exact ih _
          · rw [show fetchCalls since_date
                (ApiResult.mk none (some (some p)) :: rest) = 1 from by
                simp [fetchCalls, Bool.eq_false_iff.mpr hc]]
            rw [show (1 : Nat) = 0 + 1 from rfl, List.take_succ_cons,
              List.take_zero]
            rw [show fetch_go since_date
                (ApiResult.mk none (some (some p)) :: rest) acc =
              .ok (acc ++ (processNodes since_date p.nodes).1) from by
                simp [fetch_go, Bool.eq_false_iff.mpr hc]]
            rw [show fetch_go since_date
                (ApiResult.mk none (some (some p)) :: ([] : List ApiResult)) acc =
              .ok (acc ++ (processNodes since_date p.nodes).1) from by
                simp [fetch_go, Bool.eq_false_iff.mpr hc]]

/-! ## Claims

Sample data for the concrete witnesses. -/

def nodeA : Node :=
  { title := "A", url := "uA", merged := true, updatedAt := 150,
    state := "MERGED" }

def nodeB : Node :=
  { title := "B", url := "uB", merged := false, updatedAt := 120,
    state := "CLOSED" }

def nodeC : Node :=
  { title := "C", url := "uC", merged := false, updatedAt := 50,
    state := "OPEN" }

def nodeD : Node :=
  { title := "D", url := "uD", merged := false, updatedAt := 40,
    state := "OPEN" }

def page1 : Page :=
  { pageInfo := { hasNextPage := true, endCursor := some "c1" },
    nodes := [nodeA, nodeB] }

def page2 : Page :=
  { pageInfo := { hasNextPage := false, endCursor := none },
    nodes := [nodeC] }

def emptyPage : Page :=
  { pageInfo := { hasNextPage := false, endCursor := none }, nodes := [] }

/-- C1: over a well-formed paginated listing whose nodes arrive in
descending `updatedAt` order, `fetch_prs` returns exactly one record for
each node occurrence that is in window (`updatedAt` at or after the
cutoff) and merged-or-open — nodes closed without merge, and nodes below
the cutoff, yield none — and `main` prints exactly one CSV row per such
record. -/
theorem fetch_prs_window_filter (since_date : Int) (t : String)
    (ht : t ≠ "") (pages : List Page) (hchain : pagesChain pages = true)
    (hdesc : nodesDesc (allNodes pages) = true) :
    fetch_prs since_date (pages.map okResponse) =
      .ok (((allNodes pages).filter (keepNode since_date)).map mkRecord) ∧
    (main_run (some t) since_date (pages.map okResponse)).stdout =
      csvOutput
        (((allNodes pages).filter (keepNode since_date)).map mkRecord) := by
  have hok : fetch_prs since_date (pages.map okResponse) =
      .ok (((allNodes pages).filter (keepNode since_date)).map mkRecord) := by
    rw [fetch_prs, fetch_go_pages since_date pages hchain hdesc []]
    rw [List.nil_append]
  exact ⟨hok, by simp [main_run, ht, hok]⟩

/-- Witness for C1: two pages, cutoff 100; the merged node A is kept, the
closed-unmerged node B is dropped, the stale node C yields nothing. -/
theorem fetch_prs_window_filter_witness :
    ("tok" : String) ≠ "" ∧ pagesChain [page1, page2] = true ∧
    nodesDesc (allNodes [page1, page2]) = true ∧
    ((allNodes [page1, page2]).filter (keepNode 100)).map mkRecord =
      [mkRecord nodeA] ∧
    (fetch_prs 100 ([page1, page2].map okResponse) =
        .ok (((allNodes [page1, page2]).filter (keepNode 100)).map mkRecord) ∧
      (main_run (some "tok") 100 ([page1, page2].map okResponse)).stdout =
        csvOutput
          (((allNodes [page1, page2]).filter (keepNode 100)).map mkRecord)) :=
  ⟨by decide, by decide, by decide, by decide,
    fetch_prs_window_filter 100 "tok" (by decide) [page1, page2]
      (by decide) (by decide)⟩

/-- C2: as soon as the node walk meets a node strictly older than the
cutoff, the loop returns at once: no record is appended for that node or
for any later node of the same page, and no further response is consumed
even if the page announces a next page — the result does not depend on
`rest` at all. -/
theorem fetch_stops_at_stale (since_date : Int) (page_info : PageInfo)
    (pre : List Node) (stale : Node) (post : List Node)
    (hpre : ∀ pr ∈ pre, ¬pr.updatedAt < since_date)
    (hstale : stale.updatedAt < since_date)
    (rest : List ApiResult) (acc : List Record) :
    fetch_go since_date
        (okResponse { pageInfo := page_info, nodes := pre ++ stale :: post }
          :: rest) acc =
      .ok (acc ++ (pre.filter mergedOrOpen).map mkRecord) := by
  rw [fetch_go_okResponse]
  simp [processNodes_split since_date pre stale post hpre hstale]

/-- Witness for C2: a page announcing a next page holds fresh node A, the
stale node C, then node D; only A is kept, and the pending error response
behind it is never consumed. -/
theorem fetch_stops_at_stale_witness :
    (∀ pr ∈ [nodeA], ¬pr.updatedAt < (100 : Int)) ∧
    nodeC.updatedAt < (100 : Int) ∧
    fetch_go 100
        (okResponse
            { pageInfo := { hasNextPage := true, endCursor := some "k" },
              nodes := [nodeA] ++ nodeC :: [nodeD] }
          :: [{ errors := some ["unreached"], data := none }]) [] =
      .ok ([] ++ ([nodeA].filter mergedOrOpen).map mkRecord) :=
  ⟨by decide, by decide,
    fetch_stops_at_stale 100 { hasNextPage := true, endCursor := some "k" }
      [nodeA] nodeC [nodeD] (by decide) (by decide)
      [{ errors := some ["unreached"], data := none }] []⟩

/-- C3: when the loop reaches a response carrying a non-empty `errors`
array (after any number of responses it keeps paging through), the
process prints the errors to the error stream, exits with code 1, and
writes nothing — not even the header — to standard output. -/
theorem graphql_errors_fatal (since_date : Int) (t : String) (ht : t ≠ "")
    (pre : List ApiResult) (hpre : ∀ r ∈ pre, Continues since_date r)
    (errResp : ApiResult) (errs : List String)
    (herr : errResp.errors = some errs) (_hne : errs ≠ [])
    (rest : List ApiResult) :
    (main_run (some t) since_date (pre ++ errResp :: rest)).stdout = "" ∧
    (main_run (some t) since_date (pre ++ errResp :: rest)).stderr =
      [graphqlErrorsMsg errs] ∧
    (main_run (some t) since_date (pre ++ errResp :: rest)).exitCode = 1 := by
  obtain ⟨acc2, hskip⟩ :=
    fetch_go_skip since_date pre (errResp :: rest) hpre []
  have hfatal : fetch_prs since_date (pre ++ errResp :: rest) =
      .fatalErrors errs := by
    rw [fetch_prs, hskip]
    obtain ⟨e, d⟩ := errResp
    simp only [ApiResult.errors] at herr
    subst herr
    rfl
  simp [main_run, ht, hfatal]

/-- Witness for C3: the first response carries one error; no CSV output,
error reported, exit code 1. -/
theorem graphql_errors_fatal_witness :
    ("tok" : String) ≠ "" ∧
    (∀ r ∈ ([] : List ApiResult), Continues 100 r) ∧
    ({ errors := some ["boom"], data := none } : ApiResult).errors =
      some ["boom"] ∧
    (["boom"] : List String) ≠ [] ∧
    ((main_run (some "tok") 100
        ([] ++ ({ errors := some ["boom"], data := none } : ApiResult)
          :: [])).stdout = "" ∧
      (main_run (some "tok") 100
        ([] ++ ({ errors := some ["boom"], data := none } : ApiResult)
          :: [])).stderr = [graphqlErrorsMsg ["boom"]] ∧
      (main_run (some "tok") 100
        ([] ++ ({ errors := some ["boom"], data := none } : ApiResult)
          :: [])).exitCode = 1) :=
  ⟨by decide, by simp, rfl, by decide,
    graphql_errors_fatal 100 "tok" (by decide) [] (by simp)
      { errors := some ["boom"], data := none } ["boom"] rfl (by decide) []⟩

/-- C4: with `GITHUB_TOKEN` unset or empty, the run prints the token
error, exits with code 1, writes nothing to standard output and issues
no network call — whatever responses the API would have given. -/
theorem missing_token_fatal (githubToken : Option String)
    (h : githubToken = none ∨ githubToken = some "") (since_date : Int)
    (responses : List ApiResult) :
    main_run githubToken since_date responses =
      { stdout := "", stderr := [tokenMsg], exitCode := 1,
        networkCalls := 0 } := by
  rcases h with rfl | rfl
  · rfl
  · rfl

/-- Witness for C4: unset token, with an answerable response pending;
nothing is fetched and the run fails. -/
theorem missing_token_fatal_witness :
    ((none : Option String) = none ∨ (none : Option String) = some "") ∧
    main_run none 100 [okResponse page2] =
      { stdout := "", stderr := [tokenMsg], exitCode := 1,
        networkCalls := 0 } :=
  ⟨Or.inl rfl,
    missing_token_fatal none (Or.inl rfl) 100 [okResponse page2]⟩

/-- C5: on a successful run the CSV written to standard output always
starts with the fixed header row `title,link,merged,updated`, the exit
code is 0, and with zero retained records the output is exactly the
header and nothing else. -/
theorem csv_header_always (since_date : Int) (t : String) (ht : t ≠ "")
    (responses : List ApiResult) (prs : List Record)
    (hok : fetch_prs since_date responses = .ok prs) :
    (main_run (some t) since_date responses).stdout =
      csvHeader ++ String.join (prs.map csvRow) ∧
    (main_run (some t) since_date responses).exitCode = 0 ∧
    (prs = [] →
      (main_run (some t) since_date responses).stdout = csvHeader) := by
  have h1 : (main_run (some t) since_date responses).stdout =
      csvHeader ++ String.join (prs.map csvRow) := by
    simp [main_run, ht, hok, csvOutput]
  refine ⟨h1, by simp [main_run, ht, hok], ?_⟩
  intro hnil
  subst hnil
  rw [h1]
  decide

/-- Witness for C5: a run over one empty page retains nothing and prints
exactly the header. -/
theorem csv_header_always_witness :
    ("tok" : String) ≠ "" ∧
    fetch_prs 100 [okResponse emptyPage] = .ok [] ∧
    ((main_run (some "tok") 100 [okResponse emptyPage]).stdout =
        csvHeader ++ String.join (([] : List Record).map csvRow) ∧
      (main_run (some "tok") 100 [okResponse emptyPage]).exitCode = 0 ∧
      (([] : List Record) = [] →
        (main_run (some "tok") 100 [okResponse emptyPage]).stdout =
          csvHeader)) :=
  ⟨by decide, by decide,
    csv_header_always 100 "tok" (by decide) [okResponse emptyPage] []
      (by decide)⟩

/-- C6: every record a successful run retains was built from some fetched
node by `mkRecord`, so its `merged` column is the literal text "true"
exactly when the node's `merged` field was true and the literal text
"false" otherwise; neither literal needs CSV quoting, so the row carries
it verbatim. -/
theorem merged_column_literal (since_date : Int)
    (responses : List ApiResult) (prs : List Record)
    (hok : fetch_prs since_date responses = .ok prs)
    (r : Record) (hr : r ∈ prs) :
    ∃ pr : Node, r = mkRecord pr ∧
      r.merged = (if pr.merged then "true" else "false") ∧
      csvField r.merged = r.merged ∧
      (r.merged = "true" ∨ r.merged = "false") := by
  rcases fetch_go_ok_mem since_date responses [] prs hok r hr with
    hmem | ⟨pr, hrpr⟩
  · simp at hmem
  · refine ⟨pr, hrpr, ?_, ?_, ?_⟩
    · rw [hrpr]
      rfl
    · rw [hrpr]
      by_cases hm : pr.merged = true
      · rw [show (mkRecord pr).merged = "true" from by simp [mkRecord, hm]]
        decide
      · rw [show (mkRecord pr).merged = "false" from by
          simp [mkRecord, Bool.eq_false_iff.mpr hm]]
        decide
    · rw [hrpr]
      by_cases hm : pr.merged = true
      · exact Or.inl (by simp [mkRecord, hm])
      · exact Or.inr (by simp [mkRecord, Bool.eq_false_iff.mpr hm])

/-- Witness for C6: the one record retained from the sample listing is
node A's, with merged column "true". -/
theorem merged_column_literal_witness :
    fetch_prs 100 ([page1, page2].map okResponse) = .ok [mkRecord nodeA] ∧
    mkRecord nodeA ∈ [mkRecord nodeA] ∧
    (∃ pr : Node, mkRecord nodeA = mkRecord pr ∧
      (mkRecord nodeA).merged = (if pr.merged then "true" else "false") ∧
      csvField (mkRecord nodeA).merged = (mkRecord nodeA).merged ∧
      ((mkRecord nodeA).merged = "true" ∨
        (mkRecord nodeA).merged = "false")) :=
  ⟨by decide, by decide,
    merged_column_literal 100 ([page1, page2].map okResponse)
      [mkRecord nodeA] (by decide) (mkRecord nodeA) (by decide)⟩

/-- C7 counterexample: the response consisting solely of a non-empty
errors array — which has no data key, hence is missing the expected
repository data — is reported as GraphQL errors, not as "Repository not
accessible", refuting the claim as stated. -/
theorem repo_missing_message_claim_false :
    ({ errors := some ["boom"], data := none } : ApiResult).data = none ∧
    (main_run (some "tok") 0
        [{ errors := some ["boom"], data := none }]).stderr =
      [graphqlErrorsMsg ["boom"]] ∧
    (main_run (some "tok") 0
        [{ errors := some ["boom"], data := none }]).stderr ≠ [repoMsg] :=
  ⟨rfl, by decide, by decide⟩

/-- C7 (amended): for every reached API response that carries no
top-level errors key and is missing the expected repository data (no
data object, or a null repository under it), the process reports
"Repository not accessible" on the error stream, exits with code 1, and
writes no CSV output. -/
theorem repo_missing_fatal (since_date : Int) (t : String) (ht : t ≠ "")
    (pre : List ApiResult) (hpre : ∀ r ∈ pre, Continues since_date r)
    (badResp : ApiResult) (herr : badResp.errors = none)
    (hdata : badResp.data = none ∨ badResp.data = some none)
    (rest : List ApiResult) :
    (main_run (some t) since_date (pre ++ badResp :: rest)).stdout = "" ∧
    (main_run (some t) since_date (pre ++ badResp :: rest)).stderr =
      [repoMsg] ∧
    (main_run (some t) since_date (pre ++ badResp :: rest)).exitCode = 1 := by
  obtain ⟨acc2, hskip⟩ :=
    fetch_go_skip since_date pre (badResp :: rest) hpre []
  have hfatal : fetch_prs since_date (pre ++ badResp :: rest) =
      .fatalNoRepo := by
    rw [fetch_prs, hskip]
    obtain ⟨e, d⟩ := badResp
    simp only [ApiResult.errors] at herr
    simp only [ApiResult.data] at hdata
    subst herr
    rcases hdata with rfl | rfl <;> rfl
  simp [main_run, ht, hfatal]

/-- Witness for C7 (amended): a first response with a null repository is
reported as inaccessible with exit code 1 and empty standard output. -/
theorem repo_missing_fatal_witness :
    ("tok" : String) ≠ "" ∧
    (∀ r ∈ ([] : List ApiResult), Continues 100 r) ∧
    ({ errors := none, data := some none } : ApiResult).errors = none ∧
    (({ errors := none, data := some none } : ApiResult).data = none ∨
      ({ errors := none, data := some none } : ApiResult).data =
        some none) ∧
    ((main_run (some "tok") 100
        ([] ++ ({ errors := none, data := some none } : ApiResult)
          :: [])).stdout = "" ∧
      (main_run (some "tok") 100
        ([] ++ ({ errors := none, data := some none } : ApiResult)
          :: [])).stderr = [repoMsg] ∧
      (main_run (some "tok") 100
        ([] ++ ({ errors := none, data := some none } : ApiResult)
          :: [])).exitCode = 1) :=
  ⟨by decide, by simp, rfl, Or.inr rfl,
    repo_missing_fatal 100 "tok" (by decide) [] (by simp)
      { errors := none, data := some none } rfl (Or.inr rfl) []⟩

/-- C8 counterexample: the variables object built for the first request
has the key list owner, repo, cursor, since — the extra key "since" is
not among the three keys the claim allows, refuting "exactly the keys
owner, repo, and cursor". -/
theorem request_variables_claim_false :
    (requestVariables none "2024-01-01T00:00:00+00:00").map Prod.fst =
      ["owner", "repo", "cursor", "since"] ∧
    "since" ∈ (requestVariables none "2024-01-01T00:00:00+00:00").map
      Prod.fst ∧
    "since" ∉ (["owner", "repo", "cursor"] : List String) :=
  ⟨rfl, by decide, by decide⟩

/-- C8 (amended): every request body is a JSON object with exactly the
fields `query` — holding the fixed GraphQL document — and `variables`,
an object with exactly the keys owner, repo, cursor, and since, whatever
the current cursor and cutoff are. -/
theorem request_body_shape (cursor : Option String) (sinceIso : String) :
    requestBody prQuery (requestVariables cursor sinceIso) =
      Json.obj [("query", Json.str prQuery),
        ("variables", Json.obj (requestVariables cursor sinceIso))] ∧
    jsonKeys (requestBody prQuery (requestVariables cursor sinceIso)) =
      ["query", "variables"] ∧
    (requestVariables cursor sinceIso).map Prod.fst =
      ["owner", "repo", "cursor", "since"] :=
  ⟨rfl, rfl, rfl⟩

/-- C9: the loop is fatal on any response whose object carries an errors
key at all — the very first match is on key presence — so in particular
a response with an empty errors array still yields empty standard
output and exit code 1. -/
theorem errors_key_fatal_even_empty (since_date : Int)
    (errs : List String) (d : Option (Option Page))
    (rest : List ApiResult) (acc : List Record) :
    fetch_go since_date
        ({ errors := some errs, data := d } :: rest) acc =
      .fatalErrors errs ∧
    (main_run (some "tok") since_date
        ({ errors := some [], data := d } :: rest)).stdout = "" ∧
    (main_run (some "tok") since_date
        ({ errors := some [], data := d } :: rest)).exitCode = 1 := by
  refine ⟨rfl, ?_, ?_⟩ <;> simp [main_run, fetch_prs, fetch_go]

/-- C10: the pagination loop terminates on every finite response
sequence: it performs at most one iteration per available response, and
its whole run is already determined by the first `fetchCalls` responses
it consumes. -/
theorem fetch_terminates (since_date : Int) (responses : List ApiResult) :
    fetchCalls since_date responses ≤ responses.length ∧
    ∀ acc : List Record,
      fetch_go since_date responses acc =
        fetch_go since_date
          (responses.take (fetchCalls since_date responses)) acc :=
  ⟨fetchCalls_le_length since_date responses,
    fun acc => fetch_go_take_calls since_date responses acc⟩
